import Mathlib

/-!
Verification of the ogg-explorer core (src/src/main.rs).

The program's core is:
- `identify_packet_data_by_magic` (main.rs lines 39-68): codec magic classifier;
- `select_bitstream_with_video` (lines 70-83): picks a logical bitstream whose
  first packet carries the Theora magic;
- `PageHeader` (lines 85-210): a 27-byte page header with zero-copy field
  accessors implemented by range slicing;
- `get_packets` (lines 212-303): the page scanner, which walks the file by
  header-declared lengths only.

Bytes are modelled as `Nat` (every byte of a real file is < 256); byte slices
as `List Nat`. Fallible reads (`read_exact(..).unwrap()`) are modelled with
`Except`; a failed read is `ScanError.TruncatedInput`. The scanner's loop is
given the fuel `file.length + 1`, which is shown sufficient because each
iteration advances the cursor by at least 27 bytes or terminates.
-/

/-- The codec kinds known to the classifier (main.rs lines 29-36). -/
inductive BareOggFormat
  | Vorbis
  | Opus
  | Theora
  | Speex
  | Skeleton
deriving DecidableEq, Repr

/-- Vorbis magic sequence (main.rs line 42). -/
def vorbis_magic : List Nat := [0x01, 0x76, 0x6f, 0x72, 0x62, 0x69, 0x73]

/-- Opus magic sequence (main.rs line 44). -/
def opus_magic : List Nat := [0x4f, 0x70, 0x75, 0x73, 0x48, 0x65, 0x61, 0x64]

/-- Theora magic sequence (main.rs line 46). -/
def theora_magic : List Nat := [0x80, 0x74, 0x68, 0x65, 0x6f, 0x72, 0x61]

/-- Speex magic sequence (main.rs line 48). -/
def speex_magic : List Nat := [0x53, 0x70, 0x65, 0x65, 0x78, 0x20, 0x20, 0x20]

/-- Skeleton magic sequence (main.rs line 50). -/
def skeleton_magic : List Nat := [0x66, 105, 115, 104, 101, 97, 100, 0]

/-- The classifier (main.rs lines 39-68). The Rust `match pck_data[0]` with
pattern guards is rendered as a chain of first-byte tests; a first-byte hit
whose guard (full-magic test) fails falls to the wildcard arm, i.e. `none`.
Note that the Skeleton arm of the source returns `speex_magic.len()`
(main.rs line 62). -/
def identify_packet_data_by_magic (pck_data : List Nat) :
    Option (Nat × BareOggFormat) :=
  if pck_data.length < 1 then none
  else if pck_data.headD 0 = 0x01 then
    if vorbis_magic.isPrefixOf pck_data then
      some (vorbis_magic.length, BareOggFormat.Vorbis) else none
  else if pck_data.headD 0 = 0x4f then
    if opus_magic.isPrefixOf pck_data then
      some (opus_magic.length, BareOggFormat.Opus) else none
  else if pck_data.headD 0 = 0x80 then
    if theora_magic.isPrefixOf pck_data then
      some (theora_magic.length, BareOggFormat.Theora) else none
  else if pck_data.headD 0 = 0x53 then
    if speex_magic.isPrefixOf pck_data then
      some (speex_magic.length, BareOggFormat.Speex) else none
  else if pck_data.headD 0 = 0x66 then
    if skeleton_magic.isPrefixOf pck_data then
      some (speex_magic.length, BareOggFormat.Skeleton) else none
  else none

/-- The full magic sequence belonging to a codec kind (spec section 4.4's
dispatch table read off the source's constants). -/
def magic_of : BareOggFormat → List Nat
  | BareOggFormat.Vorbis => vorbis_magic
  | BareOggFormat.Opus => opus_magic
  | BareOggFormat.Theora => theora_magic
  | BareOggFormat.Speex => speex_magic
  | BareOggFormat.Skeleton => skeleton_magic

example : identify_packet_data_by_magic [0x01, 0x76, 0x6f, 0x72, 0x62, 0x69, 0x73, 9] =
    some (7, BareOggFormat.Vorbis) := by decide
example : identify_packet_data_by_magic [0x01, 0, 0, 0] = none := by decide
example : identify_packet_data_by_magic [] = none := by decide
example : identify_packet_data_by_magic [0x66, 105, 115, 104, 101, 97, 100, 0] =
    some (8, BareOggFormat.Skeleton) := by decide

/-- An ogg packet as used by the selector: only its `data` bytes matter
(main.rs line 76 reads `bitstream[0].data`). -/
structure Packet where
  data : List Nat
deriving DecidableEq, Repr

/-- The one failure mode of `select_bitstream_with_video`: the Rust
`bitstream[0]` indexing panics when a group is empty. -/
inductive SelectError
  | IndexOutOfBounds
deriving DecidableEq, Repr

deriving instance DecidableEq for Except

/-- The loop body of `select_bitstream_with_video` (main.rs lines 73-81):
iterate over the groups, classify each group's first packet, and remember the
group whenever the classification is Theora. The `HashMap` is modelled as an
association list fixing one iteration order. -/
def select_aux :
    List (Nat × List Packet) → Option (List Packet) →
      Except SelectError (Option (List Packet))
  | [], sel => Except.ok sel
  | b :: rest, sel =>
    match b.2.head? with
    | none => Except.error SelectError.IndexOutOfBounds
    | some p =>
      match identify_packet_data_by_magic p.data with
      | some (_, BareOggFormat.Theora) => select_aux rest (some b.2)
      | _ => select_aux rest sel

/-- `select_bitstream_with_video` (main.rs lines 70-83). -/
def select_bitstream_with_video (bitstreams : List (Nat × List Packet)) :
    Except SelectError (Option (List Packet)) :=
  select_aux bitstreams none

/-- Whether a group's first packet classifies as Theora — the test the
selector applies to each group. -/
def has_video_head (g : List Packet) : Bool :=
  match g.head? with
  | some p =>
    match identify_packet_data_by_magic p.data with
    | some (_, BareOggFormat.Theora) => true
    | _ => false
  | none => false

/-- Whether the selector returns normally (does not hit the index panic). -/
def select_ok (bitstreams : List (Nat × List Packet)) : Bool :=
  match select_bitstream_with_video bitstreams with
  | Except.ok _ => true
  | Except.error _ => false

/-- Little-endian decoding, the translation of `u32::from_le_bytes` on the
4 header bytes (each < 256, so the sum stays below 2^32 and no reduction
modulo 2^32 is needed). -/
def u32_from_le_bytes (l : List Nat) : Nat :=
  l.foldr (fun b acc => b + 256 * acc) 0

/-- Range slicing `&bytes[a..b]` on a byte slice. -/
def listSlice (l : List Nat) (a b : Nat) : List Nat :=
  (l.drop a).take (b - a)

/-- `PageHeader` (main.rs lines 85-87): a wrapper around the 27 raw header
bytes. The scanner only ever constructs it from exactly 27 bytes. -/
structure PageHeader where
  bytes : List Nat
deriving DecidableEq, Repr

/-- `capture_pattern` accessor, `&self.bytes[0..4]` (main.rs line 180). -/
def PageHeader.capture_pattern (h : PageHeader) : List Nat :=
  listSlice h.bytes 0 4

/-- `version` accessor, `&self.bytes[4..5]` (main.rs line 184). -/
def PageHeader.version (h : PageHeader) : List Nat :=
  listSlice h.bytes 4 5

/-- `header_type` accessor, `&self.bytes[5..6]` (main.rs line 188). -/
def PageHeader.header_type (h : PageHeader) : List Nat :=
  listSlice h.bytes 5 6

/-- `granule_position` accessor, `&self.bytes[6..14]` (main.rs line 192). -/
def PageHeader.granule_position (h : PageHeader) : List Nat :=
  listSlice h.bytes 6 14

/-- `bitstream_serial_number` accessor, `&self.bytes[14..18]` (main.rs line 196). -/
def PageHeader.bitstream_serial_number (h : PageHeader) : List Nat :=
  listSlice h.bytes 14 18

/-- `page_sequence_number` accessor, `&self.bytes[18..22]` (main.rs line 200). -/
def PageHeader.page_sequence_number (h : PageHeader) : List Nat :=
  listSlice h.bytes 18 22

/-- `checksum` accessor, `&self.bytes[22..26]` (main.rs line 204). -/
def PageHeader.checksum (h : PageHeader) : List Nat :=
  listSlice h.bytes 22 26

/-- `page_segments` accessor, `&self.bytes[26..27]` (main.rs line 208). -/
def PageHeader.page_segments (h : PageHeader) : List Nat :=
  listSlice h.bytes 26 27

/-- `page_segments_count`, `self.page_segments()[0]` (main.rs lines 168-170). -/
def PageHeader.page_segments_count (h : PageHeader) : Nat :=
  h.page_segments.headD 0

/-- `page_sequence_number_parsed` (main.rs lines 172-177): `split_at` the
4-byte span at `size_of::<u32>() = 4` and decode the first part little-endian. -/
def PageHeader.page_sequence_number_parsed (h : PageHeader) : Nat :=
  u32_from_le_bytes (h.page_sequence_number.take 4)

/-- The scan's failure: any `read_exact(..).unwrap()` in `get_packets` that
hits end-of-file (main.rs lines 239 and 247). -/
inductive ScanError
  | TruncatedInput
deriving DecidableEq, Repr

/-- One loop of `get_packets` (main.rs lines 236-255), with explicit fuel.
At cursor `pos`: stop successfully when the cursor equals the file length
(loop guard `in_video_meta.len() != next_header_start`); otherwise read the
27 header bytes (fails past end-of-file), read the `page_segments_count`
segment-table bytes (fails past end-of-file), and continue at
`pos + 27 + N + sum of lacing values`. Payload bytes are never read. -/
def scanAux (file : List Nat) : Nat → Nat → Except ScanError (List PageHeader)
  | 0, _ => Except.error ScanError.TruncatedInput
  | fuel + 1, pos =>
    if file.length = pos then Except.ok []
    else if pos + 27 ≤ file.length then
      let header : PageHeader := ⟨(file.drop pos).take 27⟩
      let n := header.page_segments_count
      if pos + 27 + n ≤ file.length then
        let segments_lengths := ((file.drop (pos + 27)).take n).sum
        match scanAux file fuel (pos + 27 + n + segments_lengths) with
        | Except.ok rest => Except.ok (header :: rest)
        | Except.error e => Except.error e
      else Except.error ScanError.TruncatedInput
    else Except.error ScanError.TruncatedInput

/-- `get_packets` (main.rs lines 212-258) on the file's bytes. The fuel
`file.length + 1` is sufficient: every iteration either terminates or moves
the cursor forward by at least 27. -/
def get_packets (file : List Nat) : Except ScanError (List PageHeader) :=
  scanAux file (file.length + 1) 0

/-- Whether the scan runs to completion: mirrors `scanAux` but only records
whether every read fits and the cursor lands exactly on the file length. -/
def scanFits (file : List Nat) : Nat → Nat → Bool
  | 0, _ => false
  | fuel + 1, pos =>
    if file.length = pos then true
    else if pos + 27 ≤ file.length then
      let header : PageHeader := ⟨(file.drop pos).take 27⟩
      let n := header.page_segments_count
      if pos + 27 + n ≤ file.length then
        let segments_lengths := ((file.drop (pos + 27)).take n).sum
        scanFits file fuel (pos + 27 + n + segments_lengths)
      else false
    else false

/-- The byte regions (start, length) the scanner reads: for each visited page
the 27 header bytes together with the N segment-table bytes. Payload regions
are never listed. In the case where the segment table itself overruns the
file, only the header region was read before failing. -/
def scanRegions (file : List Nat) : Nat → Nat → List (Nat × Nat)
  | 0, _ => []
  | fuel + 1, pos =>
    if file.length = pos then []
    else if pos + 27 ≤ file.length then
      let header : PageHeader := ⟨(file.drop pos).take 27⟩
      let n := header.page_segments_count
      if pos + 27 + n ≤ file.length then
        let segments_lengths := ((file.drop (pos + 27)).take n).sum
        (pos, 27 + n) :: scanRegions file fuel (pos + 27 + n + segments_lengths)
      else [(pos, 27)]
    else []

/-- Two files agree on a (start, length) region. -/
def agreeOn (f1 f2 : List Nat) (r : Nat × Nat) : Prop :=
  (f1.drop r.1).take r.2 = (f2.drop r.1).take r.2

instance (f1 f2 : List Nat) (r : Nat × Nat) : Decidable (agreeOn f1 f2 r) := by
  unfold agreeOn; infer_instance

/-- A well-formed page as laid out in a file: 27 header bytes whose segment
count byte (offset 26) declares the number of lacing bytes, followed by the
lacing bytes, followed by a payload of exactly the declared total length. -/
structure RawPage where
  header : List Nat
  lacing : List Nat
  payload : List Nat
deriving DecidableEq, Repr

/-- The bytes a page contributes to the file. -/
def RawPage.bytes (p : RawPage) : List Nat :=
  p.header ++ p.lacing ++ p.payload

/-- Well-formedness of a page: header is 27 bytes, its declared segment count
equals the number of lacing values, and the payload length is their sum. -/
def RawPage.wf (p : RawPage) : Prop :=
  p.header.length = 27 ∧ p.header.getD 26 0 = p.lacing.length ∧
    p.payload.length = p.lacing.sum

instance (p : RawPage) : Decidable p.wf := by
  unfold RawPage.wf; infer_instance

/-- A file tiled exactly by a sequence of pages. -/
def assemble (pages : List RawPage) : List Nat :=
  (pages.map RawPage.bytes).flatten

/-- Modelled from the spec: the fixed 4-byte capture pattern constant that
marks a valid page start. The repository's scanner never defines or checks
it (validation lives only in the external `ogg` crate behind the unused
`PageHeader::parser`). -/
def capture_pattern_magic : List Nat := [0x4f, 0x67, 0x67, 0x53]

example :
    get_packets ([79, 103, 103, 83] ++ List.replicate 22 0 ++ [1] ++ [1, 17]) =
      Except.ok [⟨[79, 103, 103, 83] ++ List.replicate 22 0 ++ [1]⟩] := by decide

example :
    get_packets ([79, 103, 103, 83] ++ List.replicate 22 0 ++ [1] ++ [200, 17]) =
      Except.error ScanError.TruncatedInput := by decide

example : scanFits ([79, 103, 103, 83] ++ List.replicate 22 0 ++ [1] ++ [200, 17]) 31 0 = false := by decide

example :
    select_bitstream_with_video
      [(3, [⟨[0x80, 0x74, 0x68, 0x65, 0x6f, 0x72, 0x61]⟩]),
       (5, [⟨[0x01, 0x76, 0x6f, 0x72, 0x62, 0x69, 0x73]⟩])] =
      Except.ok (some [⟨[0x80, 0x74, 0x68, 0x65, 0x6f, 0x72, 0x61]⟩]) := by decide

example : select_bitstream_with_video [(3, [])] =
    Except.error SelectError.IndexOutOfBounds := by decide

lemma isPrefixOf_length_le :
    ∀ (l1 l2 : List Nat), l1.isPrefixOf l2 = true → l1.length ≤ l2.length := by
  intro l1
  induction l1 with
  | nil => intro l2 _; simp
  | cons a t ih =>
    intro l2 h
    cases l2 with
    | nil => simp [List.isPrefixOf] at h
    | cons b t2 =>
      simp only [List.isPrefixOf, Bool.and_eq_true] at h
      have := ih t2 h.2
      simp [List.length_cons]
      omega

lemma head_of_isPrefixOf {a : Nat} {m data : List Nat}
    (h : (a :: m).isPrefixOf data = true) : data.head? = some a := by
  cases data with
  | nil => simp [List.isPrefixOf] at h
  | cons b t =>
    simp only [List.isPrefixOf, Bool.and_eq_true, beq_iff_eq] at h
    simp [h.1]

/-- Claim C4: `identify_packet_data_by_magic` returns `some (len, kind)`
exactly when the input starts with `kind`'s full fixed magic sequence, and
then `len` is the length of that signature (7 for Vorbis and Theora, 8 for
Opus, Speex and Skeleton); a first-byte dispatch hit whose full sequence
does not match yields `none` with no fall-through. -/
theorem classifier_matches_iff (data : List Nat) (len : Nat) (kind : BareOggFormat) :
    identify_packet_data_by_magic data = some (len, kind) ↔
      ((magic_of kind).isPrefixOf data = true ∧ len = (magic_of kind).length) := by
  constructor
  · intro h
    unfold identify_packet_data_by_magic at h
    split_ifs at h
    all_goals simp at h
    all_goals obtain ⟨rfl, rfl⟩ := h
    all_goals
      simp_all [magic_of, vorbis_magic, opus_magic, theora_magic, speex_magic,
        skeleton_magic]
  · rintro ⟨hp, hlen⟩
    subst hlen
    have hle := isPrefixOf_length_le _ _ hp
    cases kind <;>
      (simp only [magic_of, vorbis_magic, opus_magic, theora_magic, speex_magic,
          skeleton_magic] at hp hle ⊢
       have hh := head_of_isPrefixOf hp
       have h0 : ¬ data.length < 1 := by simp at hle; omega
       simp [identify_packet_data_by_magic, h0, hh, hp, vorbis_magic, opus_magic,
         theora_magic, speex_magic, skeleton_magic])

/-- Claim C6: the classifier is total (it is a plain Lean function into
`Option`), and every input shorter than the shortest known magic sequence
(7 bytes) — including the empty slice — yields `none`, not an error. -/
theorem classifier_short_input_no_match (data : List Nat) (h : data.length < 7) :
    identify_packet_data_by_magic data = none := by
  have hv : vorbis_magic.isPrefixOf data = false := by
    rcases hb : vorbis_magic.isPrefixOf data with _ | _
    · rfl
    · have := isPrefixOf_length_le _ _ hb; simp [vorbis_magic] at this; omega
  have ho : opus_magic.isPrefixOf data = false := by
    rcases hb : opus_magic.isPrefixOf data with _ | _
    · rfl
    · have := isPrefixOf_length_le _ _ hb; simp [opus_magic] at this; omega
  have ht : theora_magic.isPrefixOf data = false := by
    rcases hb : theora_magic.isPrefixOf data with _ | _
    · rfl
    · have := isPrefixOf_length_le _ _ hb; simp [theora_magic] at this; omega
  have hs : speex_magic.isPrefixOf data = false := by
    rcases hb : speex_magic.isPrefixOf data with _ | _
    · rfl
    · have := isPrefixOf_length_le _ _ hb; simp [speex_magic] at this; omega
  have hk : skeleton_magic.isPrefixOf data = false := by
    rcases hb : skeleton_magic.isPrefixOf data with _ | _
    · rfl
    · have := isPrefixOf_length_le _ _ hb; simp [skeleton_magic] at this; omega
  simp [identify_packet_data_by_magic, hv, ho, ht, hs, hk]

/-- Witness for C6 at a concrete 3-byte input starting like Vorbis. -/
theorem classifier_short_input_no_match_witness :
    identify_packet_data_by_magic [0x01, 0x76, 0x6f] = none :=
  classifier_short_input_no_match [0x01, 0x76, 0x6f] (by decide)

/-- Witness for C4: the Opus magic as input classifies as (8, Opus). -/
theorem classifier_matches_iff_witness :
    identify_packet_data_by_magic [0x4f, 0x70, 0x75, 0x73, 0x48, 0x65, 0x61, 0x64] =
      some (8, BareOggFormat.Opus) :=
  (classifier_matches_iff [0x4f, 0x70, 0x75, 0x73, 0x48, 0x65, 0x61, 0x64] 8
    BareOggFormat.Opus).mpr ⟨by decide, by decide⟩

lemma select_aux_spec :
    ∀ (bs : List (Nat × List Packet)) (sel : Option (List Packet)),
      (∀ g ∈ bs, g.2 ≠ []) →
      select_aux bs sel =
        Except.ok
          (((bs.filter fun b => has_video_head b.2).getLast?).elim sel
            (fun b => some b.2)) := by
  intro bs
  induction bs with
  | nil => intro sel _; simp [select_aux]
  | cons b rest ih =>
    intro sel h
    have hb : b.2 ≠ [] := h b (by simp)
    obtain ⟨p, t, hbt⟩ : ∃ p t, b.2 = p :: t := by
      cases hq : b.2 with
      | nil => exact absurd hq hb
      | cons p t => exact ⟨p, t, rfl⟩
    have hrest : ∀ g ∈ rest, g.2 ≠ [] := fun g hg => h g (by simp [hg])
    have hhead : b.2.head? = some p := by rw [hbt]; rfl
    rcases hm : identify_packet_data_by_magic p.data with _ | ⟨len, kind⟩
    · have hf : has_video_head b.2 = false := by
        simp [has_video_head, hhead, hm]
      simp only [select_aux, hhead, hm]
      rw [ih sel hrest]
      simp [hf]
    · cases kind with
      | Theora =>
        have hf : has_video_head b.2 = true := by
          simp [has_video_head, hhead, hm]
        simp only [select_aux, hhead, hm]
        rw [ih (some b.2) hrest]
        have hfc : (b :: rest).filter (fun c => has_video_head c.2) =
            b :: rest.filter (fun c => has_video_head c.2) := by
          simp [List.filter, hf]
        rw [hfc]
        cases hl : rest.filter (fun c => has_video_head c.2) with
        | nil => simp
        | cons c l2 =>
          rw [List.getLast?_cons_cons]
          cases hgl : (c :: l2).getLast? with
          | none => simp at hgl
          | some x => simp
      | Vorbis =>
        have hf : has_video_head b.2 = false := by
          simp [has_video_head, hhead, hm]
        simp only [select_aux, hhead, hm]
        rw [ih sel hrest]
        simp [hf]
      | Opus =>
        have hf : has_video_head b.2 = false := by
          simp [has_video_head, hhead, hm]
        simp only [select_aux, hhead, hm]
        rw [ih sel hrest]
        simp [hf]
      | Speex =>
        have hf : has_video_head b.2 = false := by
          simp [has_video_head, hhead, hm]
        simp only [select_aux, hhead, hm]
        rw [ih sel hrest]
        simp [hf]
      | Skeleton =>
        have hf : has_video_head b.2 = false := by
          simp [has_video_head, hhead, hm]
        simp only [select_aux, hhead, hm]
        rw [ih sel hrest]
        simp [hf]

/-- Claim C5: when every group is non-empty, `select_bitstream_with_video`
classifies each group's first packet with the magic classifier and returns
the last group (in iteration order) whose first packet classifies as
Theora, or `none` when no group does. -/
theorem selector_returns_last_video (bs : List (Nat × List Packet))
    (h : ∀ g ∈ bs, g.2 ≠ []) :
    select_bitstream_with_video bs =
      Except.ok
        (((bs.filter fun b => has_video_head b.2).getLast?).map Prod.snd) := by
  unfold select_bitstream_with_video
  rw [select_aux_spec bs none h]
  cases (bs.filter fun b => has_video_head b.2).getLast? with
  | none => rfl
  | some x => rfl

/-- Witness for C5: three groups, the first and third carrying the Theora
magic; the selector returns the third (last encountered). -/
theorem selector_returns_last_video_witness :
    select_bitstream_with_video
      [(1, [⟨[0x80, 0x74, 0x68, 0x65, 0x6f, 0x72, 0x61]⟩]),
       (2, [⟨[0x01]⟩]),
       (3, [⟨[0x80, 0x74, 0x68, 0x65, 0x6f, 0x72, 0x61, 5]⟩])] =
      Except.ok (some [⟨[0x80, 0x74, 0x68, 0x65, 0x6f, 0x72, 0x61, 5]⟩]) := by
  rw [selector_returns_last_video _ (by decide)]
  decide

lemma select_aux_empty_group :
    ∀ (bs : List (Nat × List Packet)) (sel : Option (List Packet)),
      (∃ g ∈ bs, g.2 = []) →
      select_aux bs sel = Except.error SelectError.IndexOutOfBounds := by
  intro bs
  induction bs with
  | nil => intro sel h; simp at h
  | cons b rest ih =>
    intro sel h
    by_cases hb : b.2 = []
    · simp [select_aux, hb]
    · obtain ⟨p, t, hbt⟩ : ∃ p t, b.2 = p :: t := by
        cases hq : b.2 with
        | nil => exact absurd hq hb
        | cons p t => exact ⟨p, t, rfl⟩
      have hhead : b.2.head? = some p := by rw [hbt]; rfl
      have hrest : ∃ g ∈ rest, g.2 = [] := by
        obtain ⟨g, hg, hge⟩ := h
        rcases List.mem_cons.mp hg with rfl | hg2
        · exact absurd hge hb
        · exact ⟨g, hg2, hge⟩
      simp only [select_aux, hhead]
      rcases hm : identify_packet_data_by_magic p.data with _ | ⟨len, kind⟩
      · exact ih sel hrest
      · cases kind <;>
          first
          | exact ih sel hrest
          | exact ih (some b.2) hrest

/-- Claim C8: for a `PageHeader` constructed from 27 raw bytes, each field
accessor returns exactly the byte span of its field at the layout offsets,
and `page_sequence_number_parsed` is the little-endian 32-bit decoding of
bytes 18..22. Construction itself is a total function of the 27 bytes. -/
theorem page_header_field_layout
    (b0 b1 b2 b3 b4 b5 b6 b7 b8 b9 b10 b11 b12 b13 b14 b15 b16 b17 b18 b19
      b20 b21 b22 b23 b24 b25 b26 : Nat) :
    let h : PageHeader := ⟨[b0, b1, b2, b3, b4, b5, b6, b7, b8, b9, b10, b11,
      b12, b13, b14, b15, b16, b17, b18, b19, b20, b21, b22, b23, b24, b25,
      b26]⟩
    h.capture_pattern = [b0, b1, b2, b3] ∧
      h.version = [b4] ∧
      h.header_type = [b5] ∧
      h.granule_position = [b6, b7, b8, b9, b10, b11, b12, b13] ∧
      h.bitstream_serial_number = [b14, b15, b16, b17] ∧
      h.page_sequence_number = [b18, b19, b20, b21] ∧
      h.checksum = [b22, b23, b24, b25] ∧
      h.page_segments = [b26] ∧
      h.page_sequence_number_parsed =
        b18 + 256 * b19 + 65536 * b20 + 16777216 * b21 := by
  refine ⟨rfl, rfl, rfl, rfl, rfl, rfl, rfl, rfl, ?_⟩
  show u32_from_le_bytes ([b18, b19, b20, b21].take 4) = _
  simp [u32_from_le_bytes]
  ring

/-- Claim C9: every accessor of a `PageHeader` built from 27 bytes is total:
every slice range lands inside the buffer with its full expected width, the
index 0 into the one-byte segment-count span is in bounds (and yields
`page_segments_count`), and the 4-byte split feeding the sequence-number
parse always yields exactly 4 bytes. -/
theorem page_header_accessors_total
    (b0 b1 b2 b3 b4 b5 b6 b7 b8 b9 b10 b11 b12 b13 b14 b15 b16 b17 b18 b19
      b20 b21 b22 b23 b24 b25 b26 : Nat) :
    let h : PageHeader := ⟨[b0, b1, b2, b3, b4, b5, b6, b7, b8, b9, b10, b11,
      b12, b13, b14, b15, b16, b17, b18, b19, b20, b21, b22, b23, b24, b25,
      b26]⟩
    h.bytes.length = 27 ∧
      h.capture_pattern.length = 4 ∧
      h.version.length = 1 ∧
      h.header_type.length = 1 ∧
      h.granule_position.length = 8 ∧
      h.bitstream_serial_number.length = 4 ∧
      h.page_sequence_number.length = 4 ∧
      h.checksum.length = 4 ∧
      h.page_segments.length = 1 ∧
      h.page_segments[0]? = some h.page_segments_count ∧
      h.page_sequence_number.take 4 = h.page_sequence_number ∧
      (h.page_sequence_number.take 4).length = 4 :=
  ⟨rfl, rfl, rfl, rfl, rfl, rfl, rfl, rfl, rfl, rfl, rfl, rfl⟩

lemma page_segments_count_eq_getD (l : List Nat) :
    (PageHeader.mk l).page_segments_count = l.getD 26 0 := by
  show ((l.drop 26).take 1).headD 0 = l.getD 26 0
  cases hq : l.drop 26 with
  | nil =>
    have hlen : l.length ≤ 26 := by
      have h2 := congrArg List.length hq
      simp at h2
      omega
    simp [List.getD_eq_getElem?_getD, List.getElem?_eq_none hlen]
  | cons a t =>
    have h0 : l[26]? = some a := by
      have h1 : (l.drop 26)[0]? = some a := by rw [hq]; simp
      rw [List.getElem?_drop] at h1
      simpa using h1
    simp [List.getD_eq_getElem?_getD, h0]

lemma scanFits_false (file : List Nat) :
    ∀ (fuel pos : Nat), scanFits file fuel pos = false →
      scanAux file fuel pos = Except.error ScanError.TruncatedInput := by
  intro fuel
  induction fuel with
  | zero => intro pos _; rfl
  | succ f ih =>
    intro pos h
    simp only [scanFits] at h
    simp only [scanAux]
    split_ifs at h ⊢ with h1 h2 h3
    all_goals
      first
      | rfl
      | simp at h
      | (rw [ih _ h])

/-- Claim C2: whenever the scan at some point has fewer bytes left than the
next 27-byte header or the next declared segment table requires (i.e. the
scan does not run to a clean end), `get_packets` fails with
`TruncatedInput`; it neither silently truncates nor returns the partial
header list as a success. -/
theorem scanner_truncation_fails (file : List Nat)
    (h : scanFits file (file.length + 1) 0 = false) :
    get_packets file = Except.error ScanError.TruncatedInput :=
  scanFits_false file (file.length + 1) 0 h

/-- Witness for C2: a single page whose declared lacing value 200 implies a
payload extending far past end-of-file. -/
theorem scanner_truncation_fails_witness :
    get_packets (List.replicate 26 0 ++ [1] ++ [200] ++ [1, 2, 3]) =
      Except.error ScanError.TruncatedInput :=
  scanner_truncation_fails (List.replicate 26 0 ++ [1] ++ [200] ++ [1, 2, 3])
    (by decide)

lemma scanAux_tiled :
    ∀ (pages : List RawPage) (pre : List Nat) (fuel : Nat),
      (∀ p ∈ pages, p.wf) →
      (pre ++ assemble pages).length < fuel + pre.length →
      scanAux (pre ++ assemble pages) fuel pre.length =
        Except.ok (pages.map fun p => PageHeader.mk p.header) := by
  intro pages
  induction pages with
  | nil =>
    intro pre fuel _ hfuel
    simp only [assemble, List.map_nil, List.flatten_nil, List.append_nil] at hfuel ⊢
    cases fuel with
    | zero => exact absurd hfuel (by omega)
    | succ f => simp [scanAux]
  | cons p ps ih =>
    intro pre fuel hwf hfuel
    obtain ⟨hh27, hcount, hpay⟩ := hwf p (List.mem_cons_self p ps)
    have hwfps : ∀ q ∈ ps, q.wf := fun q hq => hwf q (List.mem_cons_of_mem p hq)
    set file := pre ++ assemble (p :: ps) with hfiledef
    have hflen : file.length =
        pre.length + (27 + p.lacing.length + p.payload.length) +
          (assemble ps).length := by
      simp [hfiledef, assemble, RawPage.bytes, hh27]
      omega
    cases fuel with
    | zero => exact absurd hfuel (by omega)
    | succ f =>
      have hdrop : file.drop pre.length =
          p.header ++ (p.lacing ++ (p.payload ++ assemble ps)) := by
        rw [hfiledef]
        simp only [assemble, List.map_cons, List.flatten_cons, RawPage.bytes]
        rw [List.drop_left]
        simp [List.append_assoc]
      have hheader : (file.drop pre.length).take 27 = p.header := by
        rw [hdrop, List.take_left' hh27]
      have hdrop2 : file.drop (pre.length + 27) =
          p.lacing ++ (p.payload ++ assemble ps) := by
        have hdd := List.drop_drop 27 pre.length file
        rw [← hdd, hdrop, List.drop_left' hh27]
      have hlacing : (file.drop (pre.length + 27)).take p.lacing.length =
          p.lacing := by
        rw [hdrop2, List.take_left]
      have hnext : pre.length + 27 + p.lacing.length + p.lacing.sum =
          (pre ++ p.bytes).length := by
        simp [RawPage.bytes, hh27, ← hpay]
        omega
      have hfile2 : file = (pre ++ p.bytes) ++ assemble ps := by
        simp [hfiledef, assemble, RawPage.bytes, List.append_assoc]
      simp only [scanAux]
      rw [if_neg (show ¬ file.length = pre.length by omega)]
      rw [if_pos (show pre.length + 27 ≤ file.length by omega)]
      rw [hheader, page_segments_count_eq_getD, hcount]
      rw [if_pos (show pre.length + 27 + p.lacing.length ≤ file.length by omega)]
      rw [hlacing, hnext, hfile2]
      rw [ih (pre ++ p.bytes) f hwfps
        (by rw [← hfile2]
            have hb : (pre ++ p.bytes).length =
                pre.length + (27 + p.lacing.length + p.payload.length) := by
              simp [RawPage.bytes, hh27]
              omega
            omega)]
      simp

lemma assemble_length (pages : List RawPage) :
    (∀ p ∈ pages, p.wf) →
    (assemble pages).length =
      (pages.map fun p => 27 + p.lacing.length + p.payload.length).sum := by
  induction pages with
  | nil => intro _; simp [assemble]
  | cons p ps ih =>
    intro hwf
    have h27 := (hwf p (List.mem_cons_self p ps)).1
    have hps : ∀ q ∈ ps, q.wf := fun q hq => hwf q (List.mem_cons_of_mem p hq)
    have hih := ih hps
    simp [assemble, RawPage.bytes, h27] at hih ⊢
    omega

/-- Claim C1: on a file tiled exactly by well-formed pages (header declares
its lacing count, payload length is the lacing sum), `get_packets` emits one
header per page in file order and succeeds, and the page sizes
27 + N + payload sum exactly to the file length. -/
theorem scanner_tiles_file (pages : List RawPage)
    (hwf : ∀ p ∈ pages, p.wf) :
    get_packets (assemble pages) =
        Except.ok (pages.map fun p => PageHeader.mk p.header) ∧
      (assemble pages).length =
        (pages.map fun p => 27 + p.lacing.length + p.payload.length).sum := by
  constructor
  · have h := scanAux_tiled pages [] ((assemble pages).length + 1) hwf (by simp)
    simpa [get_packets] using h
  · exact assemble_length pages hwf

/-- Witness for C1: a two-page file (N=2 with payload 1+2=3 bytes, then an
empty N=0 page); the scan returns both headers in order. -/
theorem scanner_tiles_file_witness :
    get_packets
        (assemble [⟨List.replicate 26 0 ++ [2], [1, 2], [5, 6, 7]⟩,
          ⟨List.replicate 27 0, [], []⟩]) =
      Except.ok [⟨List.replicate 26 0 ++ [2]⟩, ⟨List.replicate 27 0⟩] := by
  have h :=
    (scanner_tiles_file
      [⟨List.replicate 26 0 ++ [2], [1, 2], [5, 6, 7]⟩,
        ⟨List.replicate 27 0, [], []⟩] (by decide)).1
  simpa using h

/-- Counterexample to claim C3 as stated: a single-page file whose header's
capture pattern is 00 00 00 00 (not the fixed constant) is accepted by
`get_packets` as a normal page and the scan completes silently — no
invalid-page error is reported. -/
theorem scanner_accepts_bad_capture_pattern :
    (PageHeader.mk (List.replicate 27 0)).capture_pattern ≠
        capture_pattern_magic ∧
      get_packets (List.replicate 27 0) =
        Except.ok [PageHeader.mk (List.replicate 27 0)] := by
  constructor
  · decide
  · decide

/-- Claim C3 (amended): the scanner never inspects the capture pattern: a
27-byte header with any four leading bytes whatsoever — in particular ones
different from the fixed constant — is accepted as a normal page and the
scan continues silently; the scanner has no invalid-page outcome. -/
theorem scanner_ignores_capture_pattern (cap : List Nat)
    (hcap : cap.length = 4) :
    get_packets (cap ++ List.replicate 23 0) =
      Except.ok [PageHeader.mk (cap ++ List.replicate 23 0)] := by
  have hgd : (cap ++ List.replicate 23 0).getD 26 0 = 0 := by
    rw [List.getD_append_right cap (List.replicate 23 0) 0 26 (by omega)]
    rw [hcap]
    decide
  have hpage : (RawPage.mk (cap ++ List.replicate 23 0) [] []).wf := by
    refine ⟨by simp [hcap], ?_, by simp⟩
    simpa using hgd
  have hasm :
      assemble [RawPage.mk (cap ++ List.replicate 23 0) [] []] =
        cap ++ List.replicate 23 0 := by
    simp [assemble, RawPage.bytes]
  have h := scanAux_tiled [RawPage.mk (cap ++ List.replicate 23 0) [] []] []
    ((cap ++ List.replicate 23 0).length + 1)
    (by intro q hq
        rw [List.mem_singleton] at hq
        subst hq
        exact hpage)
    (by simp [assemble, RawPage.bytes]
        try omega)
  simpa [get_packets, assemble, RawPage.bytes] using h

/-- Witness for the amended C3 at the concrete capture pattern 01 02 03 04. -/
theorem scanner_ignores_capture_pattern_witness :
    get_packets ([1, 2, 3, 4] ++ List.replicate 23 0) =
      Except.ok [PageHeader.mk ([1, 2, 3, 4] ++ List.replicate 23 0)] :=
  scanner_ignores_capture_pattern [1, 2, 3, 4] (by decide)

lemma scanAux_regions_agree (f1 f2 : List Nat) (hlen : f1.length = f2.length) :
    ∀ (fuel pos : Nat),
      (∀ r ∈ scanRegions f1 fuel pos, agreeOn f1 f2 r) →
      scanAux f1 fuel pos = scanAux f2 fuel pos := by
  intro fuel
  induction fuel with
  | zero => intro pos _; rfl
  | succ f ih =>
    intro pos hag
    simp only [scanAux]
    by_cases h1 : f1.length = pos
    · rw [if_pos h1, if_pos (show f2.length = pos by omega)]
    · rw [if_neg h1, if_neg (show ¬ f2.length = pos by omega)]
      by_cases h2 : pos + 27 ≤ f1.length
      · rw [if_pos h2, if_pos (show pos + 27 ≤ f2.length by omega)]
        have hhead : (f1.drop pos).take 27 = (f2.drop pos).take 27 := by
          by_cases h3 : pos + 27 +
              (PageHeader.mk ((f1.drop pos).take 27)).page_segments_count ≤
                f1.length
          · have hr : (pos, 27 +
                (PageHeader.mk ((f1.drop pos).take 27)).page_segments_count)
                ∈ scanRegions f1 (f + 1) pos := by
              simp only [scanRegions]
              rw [if_neg h1, if_pos h2, if_pos h3]
              exact List.mem_cons_self _ _
            have hag1 := hag _ hr
            have h4 := congrArg (List.take 27) hag1
            rw [List.take_take, List.take_take] at h4
            rwa [show min 27 (27 +
              (PageHeader.mk ((f1.drop pos).take 27)).page_segments_count) = 27
              from by omega] at h4
          · have hr : (pos, 27) ∈ scanRegions f1 (f + 1) pos := by
              simp only [scanRegions]
              rw [if_neg h1, if_pos h2, if_neg h3]
              exact List.mem_cons_self _ _
            exact hag _ hr
        rw [← hhead]
        by_cases h3 : pos + 27 +
            (PageHeader.mk ((f1.drop pos).take 27)).page_segments_count ≤
              f1.length
        · rw [if_pos h3, if_pos (show pos + 27 +
            (PageHeader.mk ((f1.drop pos).take 27)).page_segments_count ≤
              f2.length by omega)]
          have hr : (pos, 27 +
              (PageHeader.mk ((f1.drop pos).take 27)).page_segments_count)
              ∈ scanRegions f1 (f + 1) pos := by
            simp only [scanRegions]
            rw [if_neg h1, if_pos h2, if_pos h3]
            exact List.mem_cons_self _ _
          have hag1 := hag _ hr
          have hlac : (f1.drop (pos + 27)).take
                (PageHeader.mk ((f1.drop pos).take 27)).page_segments_count =
              (f2.drop (pos + 27)).take
                (PageHeader.mk ((f1.drop pos).take 27)).page_segments_count := by
            have h5 := congrArg (List.drop 27) hag1
            rw [List.drop_take, List.drop_take, List.drop_drop, List.drop_drop]
              at h5
            simpa using h5
          rw [← hlac]
          have hrec := ih (pos + 27 +
            (PageHeader.mk ((f1.drop pos).take 27)).page_segments_count +
            ((f1.drop (pos + 27)).take
              (PageHeader.mk ((f1.drop pos).take 27)).page_segments_count).sum)
            (by intro r hr2
                apply hag
                simp only [scanRegions]
                rw [if_neg h1, if_pos h2, if_pos h3]
                exact List.mem_cons_of_mem _ hr2)
          rw [hrec]
        · rw [if_neg h3, if_neg (show ¬ pos + 27 +
            (PageHeader.mk ((f1.drop pos).take 27)).page_segments_count ≤
              f2.length by omega)]
      · rw [if_neg h2, if_neg (show ¬ pos + 27 ≤ f2.length by omega)]

/-- Claim C7: the scanner never interprets payload bytes. Two files of equal
length that agree on every page-header and segment-table region the scan
determines from the declared lengths — but may differ arbitrarily inside
payload regions — produce identical scan results. -/
theorem scanner_ignores_payload (f1 f2 : List Nat)
    (hlen : f1.length = f2.length)
    (hag : ∀ r ∈ scanRegions f1 (f1.length + 1) 0, agreeOn f1 f2 r) :
    get_packets f1 = get_packets f2 := by
  unfold get_packets
  rw [← hlen]
  exact scanAux_regions_agree f1 f2 hlen (f1.length + 1) 0 hag

/-- Witness for C7: two one-page files differing only in their single
payload byte scan to the same header list. -/
theorem scanner_ignores_payload_witness :
    get_packets (List.replicate 26 0 ++ [1] ++ [1] ++ [5]) =
      get_packets (List.replicate 26 0 ++ [1] ++ [1] ++ [9]) :=
  scanner_ignores_payload
    (List.replicate 26 0 ++ [1] ++ [1] ++ [5])
    (List.replicate 26 0 ++ [1] ++ [1] ++ [9])
    (by decide) (by decide)

/-- Claim C10: the selector indexes each group's first element, so a map
containing an empty group makes it fail with the index panic, while under
the precondition that every group is non-empty it always returns normally. -/
theorem selector_index_safety :
    (∀ bs : List (Nat × List Packet), (∃ g ∈ bs, g.2 = []) →
        select_bitstream_with_video bs =
          Except.error SelectError.IndexOutOfBounds) ∧
    (∀ bs : List (Nat × List Packet), (∀ g ∈ bs, g.2 ≠ []) →
        select_ok bs = true) := by
  constructor
  · intro bs h
    exact select_aux_empty_group bs none h
  · intro bs h
    unfold select_ok select_bitstream_with_video
    rw [select_aux_spec bs none h]

/-- Witness for C10: an empty group makes the selector fail; a non-empty
one makes it return normally. -/
theorem selector_index_safety_witness :
    select_bitstream_with_video [(7, [])] =
        Except.error SelectError.IndexOutOfBounds ∧
      select_ok [(9, [⟨[1]⟩])] = true := by
  constructor
  · exact selector_index_safety.1 [(7, [])] (by decide)
  · exact selector_index_safety.2 [(9, [⟨[1]⟩])] (by decide)

